import Mathlib

/-!
Verification of the document-ingestion and retrieval core of the Backend
repository (`hybrid_rag_service.py`), as a shallow embedding in Lean 4.

Python dictionaries are modelled as structures, Python lists as `List`,
Python strings as `String` (with `str.lower` modelled as a per-character
case fold), timestamps as `Nat`, database tables as Lean lists of rows,
and the external Gemini HTTP services as function parameters.  The SHA-256
primitive from `hashlib` is treated as an uninterpreted function
`String → String`; everything surrounding it is modelled faithfully.
-/

set_option maxRecDepth 20000

/-- A content item attached to a section / subsection of the hierarchy
(`{"type": ..., "text": ..., "page": ...}` dicts built by
`_build_document_hierarchy`). -/
structure ContentItem where
  type : String
  text : String
  page : Option Nat := none
deriving Repr, DecidableEq

/-- A chunk produced by `HybridRAGService._create_chunk`. -/
structure Chunk where
  text : String
  sectionTitle : String
  subsectionTitle : Option String
  page : Option Nat
  type : String
deriving Repr, DecidableEq

/-- Python `str.lower()` modelled as a per-character case fold. -/
def pyLower (s : String) : String :=
  String.mk (s.data.map Char.toLower)

/-- The string appended to `parts` for one content item in
`_create_chunk`'s main loop: tables are wrapped in `[TABLE]` markers,
images in blank lines, and text is appended verbatim. -/
def contentPart (item : ContentItem) : String :=
  if item.type = "table" then "\n[TABLE]\n" ++ item.text ++ "\n"
  else if item.type = "image" then "\n" ++ item.text ++ "\n"
  else item.text

/-- One step of the `chunk_type` accumulator in `_create_chunk`: a table
item always forces type "table"; an image item upgrades "text" to
"image" but never downgrades "table". -/
def chunkTypeStep (t : String) (item : ContentItem) : String :=
  if item.type = "table" then "table"
  else if item.type = "image" then (if t = "text" then "image" else t)
  else t

/-- The final `chunk_type` computed by `_create_chunk`'s loop over the
content items (initial value "text"). -/
def chunkTypeOf (content : List ContentItem) : String :=
  content.foldl chunkTypeStep "text"

/-- The header block of a chunk: `# {section}` plus, when a non-empty
subsection title is supplied (Python truthiness of the `subsection`
argument), `## {subsection}`.  This is `header_base` in `_create_chunk`. -/
def headerBase (sectionTitle : String) (subsection : Option String) : List String :=
  ["# " ++ sectionTitle] ++
    (match subsection with
     | some s => if s = "" then [] else ["## " ++ s]
     | none => [])

/-- The full `parts` list built by `_create_chunk`: header block, an empty
separator line, then one part per content item. -/
def chunkParts (content : List ContentItem) (sectionTitle : String)
    (subsection : Option String) : List String :=
  headerBase sectionTitle subsection ++ [""] ++ content.map contentPart

/-- The splitting loop of `_create_chunk` (the `for part in
parts[len(header_base):]` loop).  State: the parts still to process, the
current accumulated group, and `current_len` (header length plus the sum
of the lengths of the appended parts — the Python code never counts the
newline separators that `"\n".join` later inserts).  A group is flushed
when appending the next part would push `current_len` over 8000; the new
group restarts from a fresh copy of the header block. -/
def splitGo (header_base : List String) (headerLen : Nat) :
    List String → List String → Nat → List (List String)
  | [], current, _ => if current = [] then [] else [current]
  | p :: rest, current, current_len =>
    if current_len + p.length > 8000 ∧ current ≠ [] then
      current :: splitGo header_base headerLen rest (header_base ++ [p]) (headerLen + p.length)
    else
      splitGo header_base headerLen rest (current ++ [p]) (current_len + p.length)

/-- `HybridRAGService._create_chunk`: returns `none` on empty content, a
single chunk when the serialized text fits in 8000 characters, and a list
of sub-chunks (each repeating the header block) otherwise. -/
def createChunk (content : List ContentItem) (sectionTitle : String)
    (subsection : Option String := none) (page : Option Nat := none) :
    Option (Chunk ⊕ List Chunk) :=
  if content = [] then none
  else
    let parts := chunkParts content sectionTitle subsection
    let ctype := chunkTypeOf content
    let chunk_text := String.intercalate "\n" parts
    if chunk_text.length > 8000 then
      let hb := headerBase sectionTitle subsection
      let hlen := (String.intercalate "\n" hb).length
      let groups := splitGo hb hlen (parts.drop hb.length) hb hlen
      some (Sum.inr (groups.map fun g =>
        { text := String.intercalate "\n" g, sectionTitle := sectionTitle,
          subsectionTitle := subsection, page := page, type := ctype }))
    else
      some (Sum.inl { text := chunk_text, sectionTitle := sectionTitle,
                      subsectionTitle := subsection, page := page, type := ctype })

/-- The chunks contained in a `_create_chunk` result (a single chunk, a
split group, or nothing). -/
def chunksOfResult : Option (Chunk ⊕ List Chunk) → List Chunk
  | none => []
  | some (Sum.inl c) => [c]
  | some (Sum.inr l) => l

/-- A standardized element handed to `_build_document_hierarchy`
(`{"type", "text", "metadata": {"level", "page"}}`).  `level` is `none`
when the metadata dictionary carries no "level" key (the code then
defaults it to 1). -/
structure Element where
  type : String
  text : String
  level : Option Nat := none
  page : Option Nat := none
deriving Repr, DecidableEq

/-- A subsection node of the hierarchy built by
`_build_document_hierarchy` (level is always 2). -/
structure Subsection where
  title : String
  level : Nat
  page : Option Nat
  content : List ContentItem
deriving Repr, DecidableEq

/-- A section node of the hierarchy built by `_build_document_hierarchy`
(level is always 1). -/
structure DocSection where
  title : String
  level : Nat
  page : Option Nat
  subsections : List Subsection
  content : List ContentItem
deriving Repr, DecidableEq

/-- The hierarchy object `{"sections": [...], "content": [...]}`. -/
structure Hierarchy where
  sections : List DocSection
  content : List ContentItem
deriving Repr, DecidableEq

/-- The section currently being built: Python mutates the dict that is
already appended to `hierarchy["sections"]` through the
`current_section` / `current_subsection` aliases; we model it as a zipper
whose open section (and its open subsection) are kept apart and flushed
when closed. -/
structure OpenSection where
  title : String
  page : Option Nat
  doneSubs : List Subsection
  curSub : Option Subsection
  content : List ContentItem
deriving Repr, DecidableEq

/-- The loop state of `_build_document_hierarchy`. -/
structure BuildState where
  doneSections : List DocSection
  curSection : Option OpenSection
  topContent : List ContentItem
deriving Repr, DecidableEq

/-- Close the open subsection of an open section, if any. -/
def flushSub : Option Subsection → List Subsection
  | none => []
  | some s => [s]

/-- Close an open section into a `DocSection` (its open subsection, if
any, is closed last). -/
def closeSection (sb : OpenSection) : DocSection :=
  { title := sb.title, level := 1, page := sb.page,
    subsections := sb.doneSubs ++ flushSub sb.curSub, content := sb.content }

/-- Close the open section of the builder state, if any. -/
def flushSection : Option OpenSection → List DocSection
  | none => []
  | some sb => [closeSection sb]

/-- The content item built from a non-title element (`Table`/`Image` are
lower-cased; anything else — including elements with unknown types — is
treated as text). -/
def contentItemOf (e : Element) : ContentItem :=
  if e.type = "Table" ∨ e.type = "Image" then
    { type := pyLower e.type, text := e.text, page := e.page }
  else
    { type := "text", text := e.text, page := e.page }

/-- Append a content item to the innermost open scope: the open
subsection if any, else the open section if any, else the top-level
content list. -/
def appendToInnermost (st : BuildState) (item : ContentItem) : BuildState :=
  match st.curSection with
  | some sb =>
    match sb.curSub with
    | some sub =>
      let sub' : Subsection := { sub with content := sub.content ++ [item] }
      { st with curSection := some ({ sb with curSub := some sub' }) }
    | none =>
      { st with curSection := some ({ sb with content := sb.content ++ [item] }) }
  | none => { st with topContent := st.topContent ++ [item] }

/-- One iteration of the `for element in elements` loop of
`_build_document_hierarchy`.  A level-1 title opens a new section (and
clears the open subsection); a level-2 title opens a new subsection only
when a section is open, and is dropped otherwise; titles of any other
level are dropped; every other element is appended to the innermost open
scope. -/
def hierStep (st : BuildState) (e : Element) : BuildState :=
  if e.type = "Title" then
    let level := e.level.getD 1
    if level = 1 then
      { doneSections := st.doneSections ++ flushSection st.curSection,
        curSection := some ({ title := e.text, page := e.page, doneSubs := [],
                              curSub := none, content := [] }),
        topContent := st.topContent }
    else if level = 2 then
      match st.curSection with
      | some sb =>
        let newSub : Subsection :=
          { title := e.text, level := 2, page := e.page, content := [] }
        let sb' : OpenSection :=
          { sb with doneSubs := sb.doneSubs ++ flushSub sb.curSub, curSub := some newSub }
        { st with curSection := some sb' }
      | none => st
    else st
  else
    appendToInnermost st (contentItemOf e)

/-- `HybridRAGService._build_document_hierarchy`. -/
def buildDocumentHierarchy (elements : List Element) : Hierarchy :=
  let st := elements.foldl hierStep
    { doneSections := [], curSection := none, topContent := [] }
  { sections := st.doneSections ++ flushSection st.curSection,
    content := st.topContent }

/-- Merge one `_create_chunk` result into the chunk list
(`chunks.extend` for a split group, `chunks.append` for a single chunk,
nothing for `None`). -/
def appendChunkResult (chunks : List Chunk) (r : Option (Chunk ⊕ List Chunk)) :
    List Chunk :=
  match r with
  | none => chunks
  | some (Sum.inl c) => chunks ++ [c]
  | some (Sum.inr cs) => chunks ++ cs

/-- `HybridRAGService._chunk_by_function`: subsections of a section
first, then the section's own content, across sections in order; chunks
from top-level content are inserted at the front under the
"Introduction" header. -/
def chunkByFunction (h : Hierarchy) : List Chunk :=
  let chunks :=
    h.sections.foldl (fun acc s =>
      let acc :=
        s.subsections.foldl (fun a sub =>
          appendChunkResult a
            (createChunk sub.content s.title (some sub.title) sub.page)) acc
      if s.content = [] then acc
      else appendChunkResult acc (createChunk s.content s.title none s.page)) []
  if h.content = [] then chunks
  else
    match createChunk h.content "Introduction" none none with
    | none => chunks
    | some (Sum.inl c) => c :: chunks
    | some (Sum.inr cs) => cs ++ chunks

/-- A row of the `vector_embeddings` table, polymorphic in the embedding
payload (the code stores a formatted float vector; its contents are
irrelevant to the invariants proved here). -/
structure EmbRow (α : Type) where
  document_id : String
  chunk_index : Nat
  chunk_type : String
  section_title : String
  subsection_title : Option String
  text_content : String
  embedding : α
  page_number : Option Nat
  meta_filename : String
  meta_user_id : String
deriving Repr, DecidableEq

/-- The fixed `batch_size` default of `_embed_and_store_chunks`. -/
def batchSize : Nat := 50

/-- Flatten the chunk list as `_embed_and_store_chunks` does before
indexing (`extend` for nested lists, `append` for plain chunks). -/
def flattenChunks (chunks : List (Chunk ⊕ List Chunk)) : List Chunk :=
  chunks.foldl (fun acc c =>
    match c with
    | Sum.inl c => acc ++ [c]
    | Sum.inr l => acc ++ l) []

/-- Build one `vector_embeddings` insert row. -/
def mkEmbRow {α : Type} (docId filename userId : String) (idx : Nat)
    (c : Chunk) (e : α) : EmbRow α :=
  { document_id := docId, chunk_index := idx, chunk_type := c.type,
    section_title := c.sectionTitle, subsection_title := c.subsectionTitle,
    text_content := c.text, embedding := e, page_number := c.page,
    meta_filename := filename, meta_user_id := userId }

/-- The batched storage loop of `_embed_and_store_chunks`: take the next
`batchSize` chunks, embed their texts with one external call, insert one
row per `(chunk, embedding)` pair with `chunk_index = i + j`, and
continue at offset `i + batchSize`. -/
def storeLoop {α : Type} (embedBatch : List String → List α)
    (docId filename userId : String) : List Chunk → Nat → List (EmbRow α)
  | [], _ => []
  | c :: rem, i =>
    let batch := (c :: rem).take batchSize
    let texts := batch.map (fun ch => ch.text)
    let embeddings := embedBatch texts
    ((batch.zip embeddings).enum.map fun je =>
      mkEmbRow docId filename userId (i + je.1) je.2.1 je.2.2) ++
      storeLoop embedBatch docId filename userId ((c :: rem).drop batchSize) (i + batchSize)
termination_by l _ => l.length
decreasing_by
  simp [batchSize]
  omega

/-- `HybridRAGService._embed_and_store_chunks`: flatten, then store in
batches starting at index 0.  Returns the list of inserted
`vector_embeddings` rows in insertion order. -/
def embedAndStoreChunks {α : Type} (embedBatch : List String → List α)
    (docId filename userId : String) (chunks : List (Chunk ⊕ List Chunk)) :
    List (EmbRow α) :=
  storeLoop embedBatch docId filename userId (flattenChunks chunks) 0

/-- The `chunk_count` value inserted into the `documents` row by
`upload_document` (`sum(1 for _ in (c for c in chunks))`). -/
def docRowChunkCount (chunks : List (Chunk ⊕ List Chunk)) : Nat :=
  (chunks.map fun _ => 1).sum

/-- Python `str.split()` (no separator): split on runs of whitespace,
dropping leading/trailing whitespace and empty fields. -/
def splitWs : List Char → List (List Char)
  | [] => []
  | c :: cs =>
    if c.isWhitespace then splitWs cs
    else (c :: cs.takeWhile (fun d => !d.isWhitespace)) ::
      splitWs (cs.dropWhile (fun d => !d.isWhitespace))
termination_by l => l.length
decreasing_by
  · simp
  · have h : (cs.dropWhile (fun d => !d.isWhitespace)).length ≤ cs.length := by
      induction cs with
      | nil => simp
      | cons c cs ih =>
        by_cases hc : c.isWhitespace
        · simp [List.dropWhile_cons, hc]
        · simp only [List.dropWhile_cons, hc]
          simp
          omega
    simpa using Nat.lt_succ_of_le h

/-- `HybridRAGService._compute_content_hash`:
`" ".join(text.lower().split())` fed to SHA-256; the hash primitive is an
uninterpreted parameter. -/
def computeContentHash (sha256hex : String → String) (text : String) : String :=
  let normalized := String.intercalate " " ((splitWs (pyLower text).data).map String.mk)
  sha256hex normalized

/-- A row of the `documents` table.  `upload_date` is an abstract
timestamp; `version` is 0 where the SQL column would be NULL. -/
structure DocRow where
  id : String
  filename : String
  content_hash : String
  chunk_count : Nat
  total_pages : Nat
  document_summary : String
  user_id : String
  upload_date : Nat
  version : Nat
  status : String
  parent_document_id : Option String := none
deriving Repr, DecidableEq

/-- A row of the `document_versions` table. -/
structure VersionRow where
  id : String
  original_document_id : String
  version_number : Nat
  filename : String
  content_hash : String
  created_by : String
deriving Repr, DecidableEq

/-- The relational store: the three tables the service mutates. -/
structure DBState (α : Type) where
  documents : List DocRow
  document_versions : List VersionRow
  vector_embeddings : List (EmbRow α)
deriving Repr, DecidableEq

/-- The `existing` summary dictionary returned by
`_check_duplicate_or_version` (the filename branch carries no summary
field). -/
structure ExistingInfo where
  id : String
  filename : String
  version : Nat
  upload_date : Option Nat
  summary : Option String := none
deriving Repr, DecidableEq

/-- The result dictionary of `_check_duplicate_or_version`. -/
structure DupResult where
  is_duplicate : Bool
  duplicate_type : Option String := none
  existing : Option ExistingInfo := none
  suggested_action : Option String := none
deriving Repr, DecidableEq

/-- Predicate of the exact-content SQL query: same content hash, same
user, status 'active'. -/
def exactMatchPred (content_hash user_id : String) (d : DocRow) : Bool :=
  d.content_hash == content_hash && d.user_id == user_id && d.status == "active"

/-- Predicate of the same-filename SQL query: same filename, same user,
status 'active'. -/
def filenameMatchPred (filename user_id : String) (d : DocRow) : Bool :=
  d.filename == filename && d.user_id == user_id && d.status == "active"

/-- `ORDER BY version DESC LIMIT 1`: the first row carrying the maximal
version among the matches. -/
def pickTopVersion : List DocRow → Option DocRow
  | [] => none
  | d :: ds =>
    match pickTopVersion ds with
    | none => some d
    | some e => if e.version > d.version then some e else some d

/-- The `isoformat() if date else None` conversion applied to the
`upload_date` column (0 models SQL NULL / Python falsy). -/
def isoDate (d : Nat) : Option Nat :=
  if d = 0 then none else some d

/-- `HybridRAGService._check_duplicate_or_version`: exact-content match
first, then same-filename match, else not a duplicate. -/
def checkDuplicateOrVersion (content_hash filename user_id : String)
    (docs : List DocRow) : DupResult :=
  match docs.find? (exactMatchPred content_hash user_id) with
  | some d =>
    { is_duplicate := true, duplicate_type := some "exact",
      existing := some { id := d.id, filename := d.filename, version := d.version,
                         upload_date := isoDate d.upload_date,
                         summary := some d.document_summary } }
  | none =>
    match pickTopVersion (docs.filter (filenameMatchPred filename user_id)) with
    | some d =>
      { is_duplicate := true, duplicate_type := some "filename",
        existing := some { id := d.id, filename := d.filename, version := d.version,
                           upload_date := isoDate d.upload_date },
        suggested_action := some "new_version" }
    | none => { is_duplicate := false }

/-- The result dictionary of `upload_document` / `handle_user_choice`;
absent keys are `none`. -/
structure UploadResult where
  status : String
  action_required : Bool := false
  message : Option String := none
  existing_document : Option ExistingInfo := none
  options : List String := []
  document_id : Option String := none
  filename : Option String := none
  chunk_count : Option Nat := none
  summary : Option String := none
  version : Option Nat := none
deriving Repr, DecidableEq

/-- The external effects of one upload, gathered in one record: the
Gemini extraction output (`full_text`, elements, page count), the
uninterpreted SHA-256 primitive, the embedding service, the generated
summary, the fresh UUIDs and the clock. -/
structure UploadEnv (α : Type) where
  sha256hex : String → String
  extractedFullText : String
  elements : List Element
  totalPages : Nat
  embedBatch : List String → List α
  summary : String
  newDocId : String
  versionRowId : String
  now : Nat

/-- `HybridRAGService.upload_document`: extract (modelled by `env`),
hash, duplicate-check, build hierarchy, chunk, embed and store the
chunks, then insert the `documents` row.  Returns the new store plus the
result dictionary. -/
def uploadDocument {α : Type} (env : UploadEnv α) (filename user_id : String)
    (db : DBState α) : DBState α × UploadResult :=
  let content_hash := computeContentHash env.sha256hex env.extractedFullText
  let dup := checkDuplicateOrVersion content_hash filename user_id db.documents
  if dup.is_duplicate then
    (db, { status := "duplicate", action_required := true,
           message := some "Document with identical content exists",
           existing_document := dup.existing,
           options := ["replace", "new_version", "keep_both", "cancel"] })
  else
    let hierarchy := buildDocumentHierarchy env.elements
    let chunks := (chunkByFunction hierarchy).map Sum.inl
    let doc_id := env.newDocId
    let rows := embedAndStoreChunks env.embedBatch doc_id filename user_id chunks
    let db := { db with vector_embeddings := db.vector_embeddings ++ rows }
    let flat_for_summary := flattenChunks chunks
    let newDoc : DocRow :=
      { id := doc_id, filename := filename, content_hash := content_hash,
        chunk_count := docRowChunkCount chunks, total_pages := env.totalPages,
        document_summary := env.summary, user_id := user_id,
        upload_date := env.now, version := 1, status := "active" }
    let db := { db with documents := db.documents ++ [newDoc] }
    (db, { status := "success", document_id := some doc_id,
           filename := some filename,
           chunk_count := some flat_for_summary.length,
           summary := some env.summary })

/-- `HybridRAGService.handle_user_choice`: dispatch on the lowercased
action.  `replace` deletes the prior document's embeddings and marks it
replaced; `new_version` archives the prior row, writes one lineage
record carrying the prior version number, re-uploads and stamps the new
row; `keep_both` just re-uploads; anything else cancels without touching
the store.  Errors model the Python `RuntimeError` / `KeyError` raises. -/
def handleUserChoice {α : Type} (env : UploadEnv α)
    (action new_filename existing_doc_id user_id : String) (db : DBState α) :
    Except String (DBState α × UploadResult) :=
  let action := pyLower action
  if action = "replace" then
    let db := { db with
      vector_embeddings := db.vector_embeddings.filter
        (fun r => r.document_id ≠ existing_doc_id) }
    let db := { db with
      documents := db.documents.map
        (fun d => if d.id = existing_doc_id then { d with status := "replaced" } else d) }
    Except.ok (uploadDocument env new_filename user_id db)
  else if action = "new_version" then
    match db.documents.find? (fun d => d.id == existing_doc_id) with
    | none => Except.error "Original document not found for creating new version"
    | some old_doc =>
      let old_version_num := if old_doc.version = 0 then 1 else old_doc.version
      let new_version_number := old_version_num + 1
      let vrow : VersionRow :=
        { id := env.versionRowId, original_document_id := existing_doc_id,
          version_number := old_version_num, filename := old_doc.filename,
          content_hash := old_doc.content_hash, created_by := user_id }
      let db := { db with document_versions := db.document_versions ++ [vrow] }
      let db := { db with
        documents := db.documents.map
          (fun d => if d.id = existing_doc_id then { d with status := "archived" } else d) }
      let res := uploadDocument env new_filename user_id db
      match res.2.document_id with
      | none => Except.error "KeyError: document_id"
      | some new_id =>
        let db := { res.1 with
          documents := res.1.documents.map
            (fun d => if d.id = new_id then
              { d with version := new_version_number,
                       parent_document_id := some existing_doc_id } else d) }
        Except.ok (db, { res.2 with version := some new_version_number })
  else if action = "keep_both" then
    Except.ok (uploadDocument env new_filename user_id db)
  else
    Except.ok (db, { status := "cancelled" })

/-- `self._max_retries` set in `HybridRAGService.__init__`. -/
def maxRetriesInit : Nat := 3

/-- `self._backoff_factor` set in `HybridRAGService.__init__`. -/
def backoffFactorInit : ℚ := 1

/-- The retry loop shared by the external-call helpers
(`for attempt in range(1, self._max_retries + 1)`), started at a given
attempt number.  `call n` models the body of the `try` block on attempt
`n` (HTTP request plus response parsing).  Returns the list of backoff
delays slept (`backoff_factor * attempt`, slept only when another
attempt remains) and the final outcome: the first success, or the last
error once the ceiling is reached. -/
def retryFrom {E A : Type} (call : Nat → Except E A) (maxRetries : Nat)
    (backoff : ℚ) (attempt : Nat) : List ℚ × Except E A :=
  match call attempt with
  | Except.ok v => ([], Except.ok v)
  | Except.error e =>
    if _h : attempt < maxRetries then
      let rest := retryFrom call maxRetries backoff (attempt + 1)
      (backoff * (attempt : ℚ) :: rest.1, rest.2)
    else ([], Except.error e)
termination_by maxRetries - attempt

/-- `HybridRAGService._generate_embeddings_batch`, with the per-attempt
HTTP call abstracted: retries up to `maxRetriesInit` attempts starting
at attempt 1, sleeping `backoffFactorInit * attempt` between attempts. -/
def generateEmbeddingsBatch {E A : Type} (call : Nat → Except E A) :
    List ℚ × Except E A :=
  retryFrom call maxRetriesInit backoffFactorInit 1

/-- A row returned by the similarity-search query of `query_documents`
(columns in SELECT order; the distance column is omitted — it only
orders the rows, which the model receives already ordered). -/
structure SearchRow where
  document_id : String
  chunk_index : Nat
  text_content : String
  section_title : String
  subsection_title : Option String
  chunk_type : String
  page_number : Option Nat
  filename : String
deriving Repr, DecidableEq

/-- One entry of the `sources` list built by `query_documents`,
including the 300-character preview with ellipsis marker. -/
structure SourceEntry where
  document_id : String
  filename : String
  sectionTitle : String
  subsectionTitle : Option String
  page : Option Nat
  type : String
  text_preview : String
deriving Repr, DecidableEq

/-- The dictionary returned by `query_documents`. -/
structure QueryResult where
  answer : String
  sources : List SourceEntry
  query : String
deriving Repr, DecidableEq

/-- The labelled context fragment built from one search row. -/
def contextFragment (r : SearchRow) : String :=
  if r.chunk_type = "table" then
    "[FROM TABLE in " ++ r.section_title ++ "]\n" ++ r.text_content
  else if r.chunk_type = "image" then
    "[FROM IMAGE in " ++ r.section_title ++ "]\n" ++ r.text_content
  else r.text_content

/-- The `sources` entry built from one search row
(`(r[2] or "")[:300] + ("..." if (r[2] or "") and len(r[2]) > 300 else "")`). -/
def sourceEntry (r : SearchRow) : SourceEntry :=
  { document_id := r.document_id, filename := r.filename,
    sectionTitle := r.section_title, subsectionTitle := r.subsection_title,
    page := r.page_number, type := r.chunk_type,
    text_preview := r.text_content.take 300 ++
      (if r.text_content ≠ "" ∧ r.text_content.length > 300 then "..." else "") }

/-- `HybridRAGService.query_documents` after the similarity search: the
search results are a parameter (the SQL rows, already ranked), and the
external completion service `_generate_answer` is the function parameter
`genAnswer` (question and context fragments to synthesized answer).
The code builds the context fragments, always calls the completion
service — there is no empty-result short-circuit — and returns its
answer with the formatted sources. -/
def queryDocuments (genAnswer : String → List String → String)
    (results : List SearchRow) (question : String) : QueryResult :=
  let context := results.map contextFragment
  let answer := genAnswer question context
  let sources := results.map sourceEntry
  { answer := answer, sources := sources, query := question }

/-- Case folding then whitespace-run collapse — the normalization named
by the specification ("collapsing each whitespace run to a single space
and folding case").  Stated from the spec's words, to be compared with
`computeContentHash`. -/
def collapseWs : List Char → List Char
  | [] => []
  | c :: cs =>
    if c.isWhitespace then ' ' :: collapseWs (cs.dropWhile (fun d => d.isWhitespace))
    else c :: collapseWs cs
termination_by l => l.length
decreasing_by
  · have h : (cs.dropWhile (fun d => d.isWhitespace)).length ≤ cs.length := by
      induction cs with
      | nil => simp
      | cons c cs ih =>
        by_cases hc : c.isWhitespace
        · simp only [List.dropWhile_cons, hc]
          simp
          omega
        · simp [List.dropWhile, hc]
    simpa using Nat.lt_succ_of_le h
  · simp

/-- The spec-side normal form of a text: fold case, then collapse each
whitespace run to a single space. -/
def specNormalForm (s : String) : String :=
  String.mk (collapseWs (s.data.map Char.toLower))

/-- A trivial concrete upload environment used by witnesses. -/
def trivEnv : UploadEnv Nat :=
  { sha256hex := fun s => s, extractedFullText := "", elements := [],
    totalPages := 0, embedBatch := fun ts => ts.map (fun _ => 0),
    summary := "", newDocId := "doc-new", versionRowId := "ver-1", now := 1 }

/-- An empty concrete store used by witnesses. -/
def trivDB : DBState Nat :=
  { documents := [], document_versions := [], vector_embeddings := [] }

/-- Concrete builder states and elements for the C8 witness. -/
def wSub : Subsection := { title := "Sub", level := 2, page := none, content := [] }

/-- An open section with an open subsection, for the C8 witness. -/
def wOpenWithSub : OpenSection :=
  { title := "Sec", page := none, doneSubs := [], curSub := some wSub, content := [] }

/-- An open section without a subsection, for the C8 witness. -/
def wOpenNoSub : OpenSection :=
  { title := "Sec", page := none, doneSubs := [], curSub := none, content := [] }

/-- A builder state with nothing open, for the C8 witness. -/
def wStTop : BuildState := { doneSections := [], curSection := none, topContent := [] }

/-- A builder state with an open section, for the C8 witness. -/
def wStSec : BuildState :=
  { doneSections := [], curSection := some wOpenNoSub, topContent := [] }

/-- A builder state with an open subsection, for the C8 witness. -/
def wStSub : BuildState :=
  { doneSections := [], curSection := some wOpenWithSub, topContent := [] }

/-- A text element for the C8 witness. -/
def wText : Element := { type := "Text", text := "hello" }

/-- An orphan level-2 title for the C8 witness. -/
def wL2 : Element := { type := "Title", text := "Orphan", level := some 2 }

/-- An active stored document used by the C6 witness. -/
def wDoc : DocRow :=
  { id := "d1", filename := "a.pdf", content_hash := "h1", chunk_count := 2,
    total_pages := 1, document_summary := "sum", user_id := "u1",
    upload_date := 5, version := 1, status := "active" }

/-- A one-section, one-item hierarchy for the C1 witness. -/
def wHier : Hierarchy :=
  { sections := [{ title := "Login", level := 1, page := none, subsections := [],
                   content := [{ type := "text", text := "hello" }] }],
    content := [] }

/-- A 7999-character content item (below the 8000 budget on its own). -/
def aBig : String := String.mk (List.replicate 7999 'a')

/-- The C2 counterexample content: one 7999-character text item followed
by a one-character text item; no single item exceeds the 8000 budget. -/
def cexContent : List ContentItem :=
  [{ type := "text", text := aBig }, { type := "text", text := "b" }]

/-- A small single-item content list used by the C2 witness. -/
def wChunkContent : List ContentItem := [{ type := "text", text := "hi" }]

/-- The prior stored document for the C5 witness. -/
def wOld : DocRow :=
  { id := "doc-1", filename := "a.pdf", content_hash := "h-old", chunk_count := 0,
    total_pages := 0, document_summary := "old", user_id := "u1",
    upload_date := 1, version := 1, status := "active" }

/-- The store holding only the prior document, for the C5 witness. -/
def db5 : DBState Nat :=
  { documents := [wOld], document_versions := [], vector_embeddings := [] }

/-- An image-then-table content list for the C9 witness. -/
def c9Content : List ContentItem :=
  [{ type := "image", text := "i" }, { type := "table", text := "t" }]

/-- The single chunk `_create_chunk` emits for `c9Content`. -/
def c9Chunk : Chunk :=
  { text := String.intercalate "\n" (chunkParts c9Content "S" none),
    sectionTitle := "S", subsectionTitle := none, page := none,
    type := chunkTypeOf c9Content }

/-- Characterization of the `chunk_type` fold of `_create_chunk` for an
arbitrary accumulator value. -/
theorem foldl_chunkTypeStep (l : List ContentItem) (t : String) :
    l.foldl chunkTypeStep t =
      if l.any (fun i => i.type == "table") then "table"
      else if t = "table" then "table"
      else if l.any (fun i => i.type == "image") then
        (if t = "text" then "image" else t)
      else t := by
  induction l generalizing t with
  | nil =>
    simp only [List.foldl_nil, List.any_nil, Bool.false_eq_true, if_false]
    split_ifs with h <;> simp [h]
  | cons i l ih =>
    simp only [List.foldl_cons, List.any_cons]
    rw [ih]
    by_cases hti : i.type = "table"
    · simp [chunkTypeStep, hti]
    · by_cases hii : i.type = "image"
      · by_cases ht : t = "text"
        · simp +decide [chunkTypeStep, hti, hii, ht]
        · simp +decide [chunkTypeStep, hti, hii, ht]
      · simp +decide [chunkTypeStep, hti, hii]

/-- C9: every chunk emitted by `_create_chunk` for a non-empty content
list is typed "table" if the list contains at least one table item
(regardless of image items or of order), else "image" if it contains at
least one image item, else "text". -/
theorem chunk_type_table_over_image (content : List ContentItem)
    (s : String) (sub : Option String) (page : Option Nat) (c : Chunk)
    (hc : c ∈ chunksOfResult (createChunk content s sub page)) :
    c.type = (if content.any (fun i => i.type == "table") then "table"
              else if content.any (fun i => i.type == "image") then "image"
              else "text") := by
  have htype : c.type = chunkTypeOf content := by
    by_cases hempty : content = []
    · simp [createChunk, hempty, chunksOfResult] at hc
    · by_cases hbig : (String.intercalate "\n" (chunkParts content s sub)).length > 8000
      · simp only [createChunk, hempty, hbig, if_true, if_false, chunksOfResult,
          List.mem_map, if_neg, not_false_eq_true, gt_iff_lt] at hc
        obtain ⟨g, _, hg⟩ := hc
        rw [← hg]
      · simp only [createChunk, hempty, hbig, if_true, if_false, chunksOfResult,
          List.mem_singleton, if_neg, not_false_eq_true, gt_iff_lt] at hc
        rw [hc]
  rw [htype, chunkTypeOf, foldl_chunkTypeStep]
  split_ifs with h1 h2 <;> simp_all

/-- Witness for C9: the chunk built from a content list holding an image
before a table is typed "table". -/
theorem chunk_type_table_over_image_witness :
    c9Chunk.type = (if c9Content.any (fun i => i.type == "table") then "table"
                    else if c9Content.any (fun i => i.type == "image") then "image"
                    else "text") :=
  chunk_type_table_over_image c9Content "S" none none c9Chunk (by decide)

/-- C3 counterexample: with zero search rows, `query_documents` does not
short-circuit — the returned answer is whatever the completion service
produces when invoked with the empty context, and no "no relevant
content" outcome is reported. -/
theorem query_empty_calls_completion_cex :
    queryDocuments
      (fun _ ctx => if ctx = [] then "completion-called-with-empty-context" else "x")
      [] "q" =
    { answer := "completion-called-with-empty-context", sources := [], query := "q" } := by
  rfl

/-- C3 (amended): when the filtered nearest-neighbor search returns zero
rows, `query_documents` still invokes the external completion service on
the empty context list and returns its answer together with an empty
sources list; there is no short-circuit and no "no relevant content"
report. -/
theorem query_empty_still_calls_completion
    (genAnswer : String → List String → String) (question : String) :
    queryDocuments genAnswer [] question =
      { answer := genAnswer question [], sources := [], query := question } := by
  rfl

/-- C7: if all three attempts of `_generate_embeddings_batch` fail, the
call is retried up to the fixed ceiling of 3 attempts set in `__init__`,
sleeping `backoff_factor * attempt` between consecutive attempts
(linear backoff), and the batch call raises the last error. -/
theorem embeddings_batch_retry_exhaustion {E A : Type}
    (call : Nat → Except E A) (e1 e2 e3 : E)
    (h1 : call 1 = Except.error e1) (h2 : call 2 = Except.error e2)
    (h3 : call 3 = Except.error e3) :
    generateEmbeddingsBatch call =
      ([backoffFactorInit * 1, backoffFactorInit * 2], Except.error e3) := by
  rw [generateEmbeddingsBatch, maxRetriesInit]
  rw [retryFrom, h1]
  simp only [Nat.one_lt_ofNat, reduceDIte]
  rw [retryFrom, h2]
  simp only [Nat.reduceLT, reduceDIte]
  rw [retryFrom, h3]
  norm_num

/-- Witness for C7: a call that always fails is attempted three times,
sleeps 1·base and 2·base, and surfaces the last error. -/
theorem embeddings_batch_retry_exhaustion_witness :
    generateEmbeddingsBatch (fun _ => (Except.error "boom" : Except String Nat)) =
      ([backoffFactorInit * 1, backoffFactorInit * 2], Except.error "boom") :=
  embeddings_batch_retry_exhaustion (fun _ => Except.error "boom")
    "boom" "boom" "boom" rfl rfl rfl

/-- C10: any action other than replace / new_version / keep_both (after
lowercasing) — cancel included — returns status "cancelled" and leaves
documents, document_versions and vector_embeddings untouched. -/
theorem unknown_action_cancels_without_mutation {α : Type} (env : UploadEnv α)
    (action new_filename existing_doc_id user_id : String) (db : DBState α)
    (h1 : pyLower action ≠ "replace") (h2 : pyLower action ≠ "new_version")
    (h3 : pyLower action ≠ "keep_both") :
    handleUserChoice env action new_filename existing_doc_id user_id db =
      Except.ok (db, { status := "cancelled" }) := by
  simp [handleUserChoice, h1, h2, h3]

/-- Witness for C10: the action "CANCEL" cancels and leaves the store
unchanged. -/
theorem unknown_action_cancels_without_mutation_witness :
    handleUserChoice trivEnv "CANCEL" "f.pdf" "doc-1" "user-1" trivDB =
      Except.ok (trivDB, { status := "cancelled" }) :=
  unknown_action_cancels_without_mutation trivEnv "CANCEL" "f.pdf" "doc-1" "user-1"
    trivDB (by decide) (by decide) (by decide)

/-- C8: one step of the hierarchy builder (i) drops a level-2 title when
no section is open, and (ii) appends any non-title element, as a content
item, to the innermost open scope — the open subsection, else the open
section, else the top-level content — always at the end (preserving
input order); the step function is total, so malformed input can only
flatten the structure, never fail. -/
theorem hierarchy_builder_step_behavior :
    (∀ (st : BuildState) (e : Element), e.type = "Title" → e.level.getD 1 = 2 →
      st.curSection = none → hierStep st e = st) ∧
    (∀ (st : BuildState) (e : Element) (sb : OpenSection) (sub : Subsection),
      e.type ≠ "Title" → st.curSection = some sb → sb.curSub = some sub →
      hierStep st e = { st with curSection := some ({ sb with curSub := some ({ sub with content := sub.content ++ [contentItemOf e] }) }) }) ∧
    (∀ (st : BuildState) (e : Element) (sb : OpenSection),
      e.type ≠ "Title" → st.curSection = some sb → sb.curSub = none →
      hierStep st e = { st with curSection := some ({ sb with content := sb.content ++ [contentItemOf e] }) }) ∧
    (∀ (st : BuildState) (e : Element),
      e.type ≠ "Title" → st.curSection = none →
      hierStep st e = { st with topContent := st.topContent ++ [contentItemOf e] }) := by
  refine ⟨?_, ?_, ?_, ?_⟩
  · intro st e ht hl hcur
    simp +decide [hierStep, ht, hl, hcur]
  · intro st e sb sub ht hcur hsub
    simp [hierStep, ht, appendToInnermost, hcur, hsub]
  · intro st e sb ht hcur hsub
    simp [hierStep, ht, appendToInnermost, hcur, hsub]
  · intro st e ht hcur
    simp [hierStep, ht, appendToInnermost, hcur]



/-- Witness for C8: an orphan level-2 title is dropped; a text element
lands in the subsection, the section, or the top-level content,
whichever is innermost. -/
theorem hierarchy_builder_step_behavior_witness :
    (hierStep wStTop wL2 = wStTop) ∧
    (hierStep wStSub wText = { wStSub with curSection := some ({ wOpenWithSub with curSub := some ({ wSub with content := wSub.content ++ [contentItemOf wText] }) }) }) ∧
    (hierStep wStSec wText = { wStSec with curSection := some ({ wOpenNoSub with content := wOpenNoSub.content ++ [contentItemOf wText] }) }) ∧
    (hierStep wStTop wText =
      { wStTop with topContent := wStTop.topContent ++ [contentItemOf wText] }) :=
  ⟨hierarchy_builder_step_behavior.1 wStTop wL2 rfl (by decide) rfl,
   hierarchy_builder_step_behavior.2.1 wStSub wText wOpenWithSub wSub
     (by decide) rfl rfl,
   hierarchy_builder_step_behavior.2.2.1 wStSec wText wOpenNoSub
     (by decide) rfl rfl,
   hierarchy_builder_step_behavior.2.2.2 wStTop wText (by decide) rfl⟩

/-- `pickTopVersion` returns nothing exactly on the empty list. -/
theorem pickTopVersion_eq_none (l : List DocRow) :
    pickTopVersion l = none ↔ l = [] := by
  cases l with
  | nil => simp [pickTopVersion]
  | cons d ds =>
    simp only [pickTopVersion]
    constructor
    · intro h
      cases hrec : pickTopVersion ds <;> simp [hrec] at h
      split at h <;> simp_all
    · intro h
      simp at h

/-- C6: the duplicate check reports an exact-content duplicate (with the
existing document's summary metadata) whenever some active document of
the owner carries the same fingerprint; otherwise a filename duplicate
with suggested action "new_version" whenever some active document of the
owner carries the same filename; otherwise no duplicate.  The
exact-content check takes precedence. -/
theorem duplicate_check_precedence (content_hash filename user_id : String)
    (docs : List DocRow) :
    ((∃ d ∈ docs, exactMatchPred content_hash user_id d) →
      (checkDuplicateOrVersion content_hash filename user_id docs).is_duplicate = true ∧
      (checkDuplicateOrVersion content_hash filename user_id docs).duplicate_type = some "exact" ∧
      ∃ d, docs.find? (exactMatchPred content_hash user_id) = some d ∧
        (checkDuplicateOrVersion content_hash filename user_id docs).existing =
          some { id := d.id, filename := d.filename, version := d.version, upload_date := isoDate d.upload_date, summary := some d.document_summary }) ∧
    ((¬ ∃ d ∈ docs, exactMatchPred content_hash user_id d) →
     (∃ d ∈ docs, filenameMatchPred filename user_id d) →
      (checkDuplicateOrVersion content_hash filename user_id docs).is_duplicate = true ∧
      (checkDuplicateOrVersion content_hash filename user_id docs).duplicate_type = some "filename" ∧
      (checkDuplicateOrVersion content_hash filename user_id docs).suggested_action = some "new_version") ∧
    ((¬ ∃ d ∈ docs, exactMatchPred content_hash user_id d) →
     (¬ ∃ d ∈ docs, filenameMatchPred filename user_id d) →
      (checkDuplicateOrVersion content_hash filename user_id docs).is_duplicate = false) := by
  refine ⟨?_, ?_, ?_⟩
  · intro hex
    have hsome : (docs.find? (exactMatchPred content_hash user_id)).isSome := by
      rw [List.find?_isSome]
      simpa using hex
    obtain ⟨d, hd⟩ := Option.isSome_iff_exists.mp hsome
    simp [checkDuplicateOrVersion, hd]
  · intro hnoex hfn
    have hnone : docs.find? (exactMatchPred content_hash user_id) = none := by
      rw [List.find?_eq_none]
      intro x hx
      exact fun hp => hnoex ⟨x, hx, hp⟩
    have hne : docs.filter (filenameMatchPred filename user_id) ≠ [] := by
      intro hnil
      obtain ⟨d, hd, hp⟩ := hfn
      have := List.filter_eq_nil_iff.mp hnil d hd
      exact this hp
    have hpick : (pickTopVersion (docs.filter (filenameMatchPred filename user_id))).isSome := by
      cases hp : pickTopVersion (docs.filter (filenameMatchPred filename user_id)) with
      | none => exact absurd ((pickTopVersion_eq_none _).mp hp) hne
      | some d => rfl
    obtain ⟨d, hd⟩ := Option.isSome_iff_exists.mp hpick
    simp [checkDuplicateOrVersion, hnone, hd]
  · intro hnoex hnofn
    have hnone : docs.find? (exactMatchPred content_hash user_id) = none := by
      rw [List.find?_eq_none]
      exact fun x hx hp => hnoex ⟨x, hx, hp⟩
    have hnil : docs.filter (filenameMatchPred filename user_id) = [] := by
      rw [List.filter_eq_nil_iff]
      exact fun x hx hp => hnofn ⟨x, hx, hp⟩
    simp [checkDuplicateOrVersion, hnone, hnil, pickTopVersion]



/-- Witness for C6: the same stored document is reported as an exact
duplicate on a fingerprint match, as a filename duplicate (suggesting
"new_version") on a filename match with a different fingerprint, and a
fresh owner sees no duplicate. -/
theorem duplicate_check_precedence_witness :
    ((checkDuplicateOrVersion "h1" "b.pdf" "u1" [wDoc]).duplicate_type = some "exact") ∧
    ((checkDuplicateOrVersion "h2" "a.pdf" "u1" [wDoc]).duplicate_type = some "filename" ∧
     (checkDuplicateOrVersion "h2" "a.pdf" "u1" [wDoc]).suggested_action = some "new_version") ∧
    ((checkDuplicateOrVersion "h1" "a.pdf" "u2" [wDoc]).is_duplicate = false) :=
  ⟨((duplicate_check_precedence "h1" "b.pdf" "u1" [wDoc]).1
      ⟨wDoc, by decide, by decide⟩).2.1,
   ⟨((duplicate_check_precedence "h2" "a.pdf" "u1" [wDoc]).2.1
      (by decide) ⟨wDoc, by decide, by decide⟩).2.1,
    ((duplicate_check_precedence "h2" "a.pdf" "u1" [wDoc]).2.1
      (by decide) ⟨wDoc, by decide, by decide⟩).2.2⟩,
   (duplicate_check_precedence "h1" "a.pdf" "u2" [wDoc]).2.2
      (by decide) (by decide)⟩

/-- Dropping by a predicate never lengthens a list. -/
theorem length_dropWhile_le' (p : Char → Bool) (l : List Char) :
    (l.dropWhile p).length ≤ l.length := by
  induction l with
  | nil => simp
  | cons c cs ih =>
    by_cases hc : p c
    · simp only [List.dropWhile_cons, hc, if_true, List.length_cons]
      omega
    · simp [List.dropWhile_cons, hc]

/-- Leading whitespace does not affect Python `split()`. -/
theorem splitWs_dropWhile (l : List Char) :
    splitWs (l.dropWhile (fun d => d.isWhitespace)) = splitWs l := by
  induction l with
  | nil => simp
  | cons c cs ih =>
    by_cases hc : c.isWhitespace
    · rw [List.dropWhile_cons, if_pos (by simpa using hc), ih]
      have h1 : splitWs (c :: cs) = splitWs cs := by
        simp only [splitWs, hc, if_true]
      rw [h1]
    · rw [List.dropWhile_cons, if_neg (by simpa using hc)]

/-- Collapsing whitespace runs preserves the leading word. -/
theorem takeWhile_collapseWs (l : List Char) :
    (collapseWs l).takeWhile (fun d => !d.isWhitespace) =
      l.takeWhile (fun d => !d.isWhitespace) := by
  induction l with
  | nil => simp [collapseWs]
  | cons c cs ih =>
    by_cases hc : c.isWhitespace
    · simp only [collapseWs, hc, if_true]
      simp +decide [List.takeWhile_cons, hc]
    · simp only [collapseWs, hc, if_false]
      simp [List.takeWhile_cons, hc, ih]

/-- Collapsing whitespace runs commutes with dropping the leading word. -/
theorem dropWhile_collapseWs (l : List Char) :
    (collapseWs l).dropWhile (fun d => !d.isWhitespace) =
      collapseWs (l.dropWhile (fun d => !d.isWhitespace)) := by
  induction l with
  | nil => simp [collapseWs]
  | cons c cs ih =>
    by_cases hc : c.isWhitespace
    · simp only [collapseWs, hc, if_true]
      simp +decide [List.dropWhile_cons, hc]
      simp only [collapseWs, hc, if_true]
    · simp only [collapseWs, hc, if_false]
      simp [List.dropWhile_cons, hc, ih]

/-- Python `split()` only depends on the whitespace-collapsed text. -/
theorem splitWs_collapseWs (l : List Char) :
    splitWs (collapseWs l) = splitWs l := by
  have key : ∀ (n : Nat) (l : List Char), l.length ≤ n →
      splitWs (collapseWs l) = splitWs l := by
    intro n
    induction n with
    | zero =>
      intro l hl
      have h0 : l = [] := List.length_eq_zero.mp (Nat.le_zero.mp hl)
      subst h0
      simp [collapseWs]
    | succ n ih =>
      intro l hl
      match l with
      | [] => simp [collapseWs]
      | c :: cs =>
        by_cases hc : c.isWhitespace
        · have h1 : collapseWs (c :: cs) =
              ' ' :: collapseWs (cs.dropWhile (fun d => d.isWhitespace)) := by
            simp only [collapseWs, hc, if_true]
          rw [h1]
          have h2 : splitWs (' ' :: collapseWs (cs.dropWhile (fun d => d.isWhitespace))) =
              splitWs (collapseWs (cs.dropWhile (fun d => d.isWhitespace))) := by
            simp only [splitWs]
            simp +decide
          rw [h2]
          have hlen : (cs.dropWhile (fun d => d.isWhitespace)).length ≤ n := by
            have := length_dropWhile_le' (fun d => d.isWhitespace) cs
            simp at hl
            omega
          rw [ih _ hlen, splitWs_dropWhile]
          have h3 : splitWs (c :: cs) = splitWs cs := by
            simp only [splitWs, hc, if_true]
          rw [h3]
        · have h1 : collapseWs (c :: cs) = c :: collapseWs cs := by
            simp only [collapseWs, hc, Bool.false_eq_true, if_false]
          rw [h1]
          have h2 : splitWs (c :: collapseWs cs) =
              (c :: (collapseWs cs).takeWhile (fun d => !d.isWhitespace)) ::
                splitWs ((collapseWs cs).dropWhile (fun d => !d.isWhitespace)) := by
            simp only [splitWs, hc, Bool.false_eq_true, if_false]
          have h3 : splitWs (c :: cs) =
              (c :: cs.takeWhile (fun d => !d.isWhitespace)) ::
                splitWs (cs.dropWhile (fun d => !d.isWhitespace)) := by
            simp only [splitWs, hc, Bool.false_eq_true, if_false]
          rw [h2, h3, takeWhile_collapseWs, dropWhile_collapseWs]
          have hlen : (cs.dropWhile (fun d => !d.isWhitespace)).length ≤ n := by
            have := length_dropWhile_le' (fun d => !d.isWhitespace) cs
            simp at hl
            omega
          rw [ih _ hlen]
  exact key l.length l le_rfl

/-- C4: texts that agree after folding case and collapsing every
whitespace run to a single space receive identical content
fingerprints; the fingerprint is the (uninterpreted) 256-bit hash
applied to the normalized text. -/
theorem content_hash_normalization_invariant (sha256hex : String → String)
    (a b : String) (h : specNormalForm a = specNormalForm b) :
    computeContentHash sha256hex a = computeContentHash sha256hex b := by
  have hcol : collapseWs (a.data.map Char.toLower) =
      collapseWs (b.data.map Char.toLower) := by
    have hd := congrArg String.data h
    simpa [specNormalForm] using hd
  have hsplit : splitWs (a.data.map Char.toLower) =
      splitWs (b.data.map Char.toLower) := by
    rw [← splitWs_collapseWs (a.data.map Char.toLower), hcol, splitWs_collapseWs]
  have ha : (pyLower a).data = a.data.map Char.toLower := rfl
  have hb : (pyLower b).data = b.data.map Char.toLower := rfl
  unfold computeContentHash
  exact congrArg sha256hex (by rw [ha, hb, hsplit])

/-- Witness for C4: `"Hello   World"` and `"hello world"` normalize
identically and hash identically. -/
theorem content_hash_normalization_invariant_witness :
    specNormalForm "Hello   World" = specNormalForm "hello world" ∧
    computeContentHash (fun s => s) "Hello   World" =
      computeContentHash (fun s => s) "hello world" :=
  ⟨by simp +decide [specNormalForm, collapseWs],
   content_hash_normalization_invariant (fun s => s) "Hello   World" "hello world"
     (by simp +decide [specNormalForm, collapseWs])⟩

/-- Flattening a list of plain (unnested) chunks is the identity. -/
theorem flattenChunks_map_inl (chunks : List Chunk) :
    flattenChunks (chunks.map Sum.inl) = chunks := by
  have key : ∀ (l : List Chunk) (acc : List Chunk),
      (l.map Sum.inl).foldl (fun acc c =>
        match c with
        | Sum.inl c => acc ++ [c]
        | Sum.inr l => acc ++ l) acc = acc ++ l := by
    intro l
    induction l with
    | nil => intro acc; simp
    | cons c cs ih => intro acc; simp [ih]
  simpa [flattenChunks] using key chunks []

/-- The `chunk_count` stored on the documents row is the length of the
chunk list produced by the Functional Chunker. -/
theorem docRowChunkCount_map_inl (chunks : List Chunk) :
    docRowChunkCount (chunks.map Sum.inl) = chunks.length := by
  induction chunks with
  | nil => rfl
  | cons c cs ih =>
    simp only [docRowChunkCount, List.map_cons, List.sum_cons, List.length_cons] at *
    omega

/-- The storage loop enumerates chunk indexes densely from its starting
offset, in emission order, and stores every chunk's text once, provided
the embedding service returns one vector per input text. -/
theorem storeLoop_spec {α : Type} (embedBatch : List String → List α)
    (docId filename userId : String)
    (hlen : ∀ ts, (embedBatch ts).length = ts.length)
    (l : List Chunk) (i : Nat) :
    ((storeLoop embedBatch docId filename userId l i).map
        (fun r => r.chunk_index) = (List.range l.length).map (fun j => i + j)) ∧
    ((storeLoop embedBatch docId filename userId l i).map
        (fun r => r.text_content) = l.map (fun c => c.text)) := by
  have key : ∀ (n : Nat) (l : List Chunk) (i : Nat), l.length ≤ n →
      ((storeLoop embedBatch docId filename userId l i).map
          (fun r => r.chunk_index) = (List.range l.length).map (fun j => i + j)) ∧
      ((storeLoop embedBatch docId filename userId l i).map
          (fun r => r.text_content) = l.map (fun c => c.text)) := by
    intro n
    induction n with
    | zero =>
      intro l i hl
      have h0 : l = [] := List.length_eq_zero.mp (Nat.le_zero.mp hl)
      subst h0
      simp [storeLoop]
    | succ n ih =>
      intro l i hl
      match l with
      | [] => simp [storeLoop]
      | c :: rem =>
        have hbatchlen : ((c :: rem).take batchSize).length = min batchSize (c :: rem).length := by
          simp [List.length_take]
        have hembs : (embedBatch (((c :: rem).take batchSize).map (fun ch => ch.text))).length =
            ((c :: rem).take batchSize).length := by
          rw [hlen, List.length_map]
        have hziplen : (((c :: rem).take batchSize).zip
            (embedBatch (((c :: rem).take batchSize).map (fun ch => ch.text)))).length =
            ((c :: rem).take batchSize).length := by
          rw [List.length_zip, hembs, min_self]
        have hdroplen : ((c :: rem).drop batchSize).length ≤ n := by
          simp only [List.length_drop]
          simp only [List.length_cons] at hl ⊢
          have : batchSize = 50 := rfl
          omega
        have hih := ih ((c :: rem).drop batchSize) (i + batchSize) hdroplen
        constructor
        · rw [storeLoop]
          simp only [List.map_append, List.map_map]
          rw [hih.1]
          have hA : ((((c :: rem).take batchSize).zip
              (embedBatch (((c :: rem).take batchSize).map (fun ch => ch.text)))).enum.map
                ((fun r => r.chunk_index) ∘ (fun je =>
                  mkEmbRow docId filename userId (i + je.1) je.2.1 je.2.2))) =
              (List.range (min batchSize (c :: rem).length)).map (fun j => i + j) := by
            have h1 : ((fun r => r.chunk_index) ∘ (fun je : Nat × (Chunk × α) =>
                mkEmbRow docId filename userId (i + je.1) je.2.1 je.2.2)) =
                (fun j => i + j) ∘ Prod.fst := by
              funext je
              simp [mkEmbRow]
            rw [h1, ← List.map_map, List.enum_map_fst, hziplen, hbatchlen]
          rw [hA]
          simp only [List.length_drop, List.length_cons, batchSize]
          by_cases hle : rem.length + 1 ≤ 50
          · have hz : rem.length + 1 - 50 = 0 := by omega
            have hmin : 50 ⊓ (rem.length + 1) = rem.length + 1 := by omega
            rw [hz, hmin]
            simp
          · have hmin : 50 ⊓ (rem.length + 1) = 50 := by omega
            have hsplitn : rem.length + 1 = 50 + (rem.length + 1 - 50) := by omega
            rw [hmin]
            conv_rhs => rw [hsplitn]
            rw [List.range_add, List.map_append, List.map_map]
            congr 1
            apply List.map_congr_left
            intro j _
            simp
            omega
        · rw [storeLoop]
          simp only [List.map_append, List.map_map]
          rw [hih.2]
          have hB : ((((c :: rem).take batchSize).zip
              (embedBatch (((c :: rem).take batchSize).map (fun ch => ch.text)))).enum.map
                ((fun r => r.text_content) ∘ (fun je =>
                  mkEmbRow docId filename userId (i + je.1) je.2.1 je.2.2))) =
              ((c :: rem).take batchSize).map (fun c => c.text) := by
            have h1 : ((fun r => r.text_content) ∘ (fun je : Nat × (Chunk × α) =>
                mkEmbRow docId filename userId (i + je.1) je.2.1 je.2.2)) =
                (fun c : Chunk => c.text) ∘ Prod.fst ∘ Prod.snd := by
              funext je
              simp [mkEmbRow]
            rw [h1]
            rw [show ((fun c : Chunk => c.text) ∘ Prod.fst ∘ Prod.snd) =
              ((fun c : Chunk => c.text) ∘ Prod.fst) ∘ (Prod.snd (α := Nat)) from rfl]
            rw [← List.map_map, List.enum_map_snd, ← List.map_map]
            rw [List.map_fst_zip _ _ (by rw [hembs])]
          rw [hB, ← List.map_append, List.take_append_drop]
  exact key l.length l i le_rfl

/-- C1: for a completed ingestion, the `chunk_index` values stored in
`vector_embeddings` for the document are exactly `0, …, chunk_count-1`
in order (dense, zero-based, no gaps or repeats), where `chunk_count` is
the value stored on the documents row, and the rows carry the chunk
texts in exactly the order the Functional Chunker emitted them —
provided the embedding service returns one vector per input text. -/
theorem chunk_index_dense_zero_based {α : Type} (embedBatch : List String → List α)
    (docId filename userId : String) (h : Hierarchy)
    (hlen : ∀ ts, (embedBatch ts).length = ts.length) :
    ((embedAndStoreChunks embedBatch docId filename userId
        ((chunkByFunction h).map Sum.inl)).map (fun r => r.chunk_index) =
      List.range (docRowChunkCount ((chunkByFunction h).map Sum.inl))) ∧
    ((embedAndStoreChunks embedBatch docId filename userId
        ((chunkByFunction h).map Sum.inl)).map (fun r => r.text_content) =
      (chunkByFunction h).map (fun c => c.text)) := by
  have hs := storeLoop_spec embedBatch docId filename userId hlen (chunkByFunction h) 0
  constructor
  · rw [embedAndStoreChunks, flattenChunks_map_inl, docRowChunkCount_map_inl, hs.1]
    simp
  · rw [embedAndStoreChunks, flattenChunks_map_inl]
    exact hs.2


/-- Witness for C1: the pipeline over a concrete hierarchy, with an
embedding service returning one vector per text, stores densely indexed
rows in chunker order. -/
theorem chunk_index_dense_zero_based_witness :
    ((embedAndStoreChunks (fun ts => ts.map fun _ => (0 : Nat)) "d" "f" "u"
        ((chunkByFunction wHier).map Sum.inl)).map (fun r => r.chunk_index) =
      List.range (docRowChunkCount ((chunkByFunction wHier).map Sum.inl))) ∧
    ((embedAndStoreChunks (fun ts => ts.map fun _ => (0 : Nat)) "d" "f" "u"
        ((chunkByFunction wHier).map Sum.inl)).map (fun r => r.text_content) =
      (chunkByFunction wHier).map (fun c => c.text)) :=
  chunk_index_dense_zero_based (fun ts => ts.map fun _ => (0 : Nat)) "d" "f" "u" wHier
    (fun ts => by simp)

/-- Appending one more string to the intercalated list appends one
separator and the string. -/
theorem intercalate_go_append (s x : String) (as : List String) :
    ∀ (acc : String),
      String.intercalate.go acc s (as ++ [x]) = String.intercalate.go acc s as ++ s ++ x := by
  induction as with
  | nil => intro acc; rfl
  | cons b bs ih =>
    intro acc
    show String.intercalate.go (acc ++ s ++ b) s (bs ++ [x]) =
      String.intercalate.go (acc ++ s ++ b) s bs ++ s ++ x
    exact ih (acc ++ s ++ b)

/-- `"\n".join (l + [x]) = "\n".join(l) + "\n" + x` for non-empty `l`. -/
theorem intercalate_append_single (l : List String) (x : String) (hl : l ≠ []) :
    String.intercalate "\n" (l ++ [x]) = String.intercalate "\n" l ++ "\n" ++ x := by
  match l with
  | [] => exact absurd rfl hl
  | a :: as =>
    show String.intercalate.go a "\n" (as ++ [x]) = String.intercalate.go a "\n" as ++ "\n" ++ x
    exact intercalate_go_append "\n" x as a

/-- The length of a joined list: base part plus the summed lengths of
the appended parts plus one newline per appended part. -/
theorem intercalate_append_length (t : List String) :
    ∀ (l : List String), l ≠ [] →
      (String.intercalate "\n" (l ++ t)).length =
        (String.intercalate "\n" l).length + (t.map String.length).sum + t.length := by
  induction t with
  | nil => intro l _; simp
  | cons x xs ih =>
    intro l hl
    have h1 : l ++ x :: xs = (l ++ [x]) ++ xs := by simp
    rw [h1, ih (l ++ [x]) (by simp), intercalate_append_single l x hl]
    simp only [String.length_append, List.map_cons, List.sum_cons, List.length_cons]
    have hnl : ("\n" : String).length = 1 := rfl
    rw [hnl]
    omega

/-- The splitting loop of `_create_chunk` partitions its input: the
emitted groups are exactly `hb ++ t` for the tails `t` of a
decomposition `ts` whose concatenation is the already-accumulated tail
followed by the pending parts — every part kept whole, in order,
nothing dropped or repeated — and each tail's size counter (header
length plus summed part lengths) stays within the 8000 budget except
for tails holding at most one part. -/
theorem splitGo_decomposition (hb : List String) (hlen : Nat) (hhb : hb ≠ []) :
    ∀ (parts tail : List String),
      (hlen + (tail.map String.length).sum ≤ 8000 ∨ tail.length ≤ 1) →
      ∃ ts : List (List String),
        splitGo hb hlen parts (hb ++ tail) (hlen + (tail.map String.length).sum) =
          ts.map (fun t => hb ++ t) ∧
        ts.flatten = tail ++ parts ∧
        ∀ t ∈ ts, (hlen + (t.map String.length).sum ≤ 8000 ∨ t.length ≤ 1) := by
  intro parts
  induction parts with
  | nil =>
    intro tail htail
    have hcur : hb ++ tail ≠ [] := by simp [hhb]
    refine ⟨[tail], ?_, by simp, ?_⟩
    · rw [splitGo, if_neg hcur]
      simp
    · intro t ht
      rw [List.mem_singleton] at ht
      subst ht
      exact htail
  | cons p rest ih =>
    intro tail htail
    have hcur : hb ++ tail ≠ [] := by simp [hhb]
    by_cases hcond : hlen + (tail.map String.length).sum + p.length > 8000
    · obtain ⟨ts', heq, hflat, hall⟩ := ih [p] (Or.inr (by simp))
      have heq' : hlen + p.length = hlen + (([p] : List String).map String.length).sum := by
        simp
      refine ⟨tail :: ts', ?_, ?_, ?_⟩
      · rw [splitGo, if_pos ⟨hcond, hcur⟩, heq', heq]
        simp
      · rw [List.flatten_cons, hflat]
        simp
      · intro t ht
        rcases List.mem_cons.mp ht with h | h
        · subst h
          exact htail
        · exact hall t h
    · have hsum : hlen + (tail.map String.length).sum + p.length =
          hlen + ((tail ++ [p]).map String.length).sum := by
        simp [List.map_append, List.sum_append]
        omega
      obtain ⟨ts', heq, hflat, hall⟩ := ih (tail ++ [p]) (Or.inl (by rw [← hsum]; omega))
      refine ⟨ts', ?_, ?_, hall⟩
      · rw [splitGo, if_neg (fun hand => hcond hand.1)]
        have hassoc : (hb ++ tail) ++ [p] = hb ++ (tail ++ [p]) := by simp
        rw [hassoc, hsum, heq]
      · rw [hflat]
        simp

/-- C2 (amended): for non-empty content, the chunks `_create_chunk`
emits are exactly the joins of the header block followed by the tails
of a decomposition `ts` of the full parts list (the separator line plus
one whole part per content item): the tails concatenate back to the
parts list — every part kept whole, in input order, nothing dropped,
duplicated or split, the header block never split — and each tail's
size counter (header length plus summed part lengths, which omits the
newline separators `"\n".join` inserts) is at most 8000, equivalently
each chunk's serialized text is at most 8000 plus the number of its
parts — except for tails holding at most one part beyond the header,
which are emitted whole even when header plus part exceed the budget. -/
theorem chunk_size_budget_soft (content : List ContentItem) (s : String)
    (sub : Option String) (page : Option Nat) (hne : content ≠ []) :
    ∃ ts : List (List String),
      chunksOfResult (createChunk content s sub page) =
        ts.map (fun t =>
          { text := String.intercalate "\n" (headerBase s sub ++ t),
            sectionTitle := s, subsectionTitle := sub, page := page,
            type := chunkTypeOf content }) ∧
      ts.flatten = [""] ++ content.map contentPart ∧
      (∀ t ∈ ts, ((String.intercalate "\n" (headerBase s sub)).length +
          (t.map String.length).sum ≤ 8000 ∨ t.length ≤ 1)) ∧
      (∀ t ∈ ts, ((String.intercalate "\n" (headerBase s sub ++ t)).length ≤
          8000 + t.length ∨ t.length ≤ 1)) := by
  have hhb : headerBase s sub ≠ [] := by simp [headerBase]
  have hparts_eq : chunkParts content s sub =
      headerBase s sub ++ ([""] ++ content.map contentPart) := by
    rw [chunkParts, List.append_assoc]
  by_cases hbig : (String.intercalate "\n" (chunkParts content s sub)).length > 8000
  · have hcc : chunksOfResult (createChunk content s sub page) =
        (splitGo (headerBase s sub)
          ((String.intercalate "\n" (headerBase s sub)).length)
          ((chunkParts content s sub).drop (headerBase s sub).length)
          (headerBase s sub)
          ((String.intercalate "\n" (headerBase s sub)).length)).map
          (fun g => { text := String.intercalate "\n" g, sectionTitle := s,
                      subsectionTitle := sub, page := page,
                      type := chunkTypeOf content }) := by
      simp only [createChunk, hne, hbig, if_true, if_false, if_neg,
        not_false_eq_true, gt_iff_lt, chunksOfResult]
    have hdec := splitGo_decomposition (headerBase s sub)
      ((String.intercalate "\n" (headerBase s sub)).length) hhb
      ((chunkParts content s sub).drop (headerBase s sub).length) []
      (Or.inr (by simp))
    simp only [List.append_nil, List.map_nil, List.sum_nil, Nat.add_zero,
      List.nil_append] at hdec
    obtain ⟨ts, heq, hflat, hall⟩ := hdec
    refine ⟨ts, ?_, ?_, hall, ?_⟩
    · rw [hcc, heq, List.map_map]
      rfl
    · rw [hflat, hparts_eq, List.drop_left]
    · intro t ht
      rcases hall t ht with h | h
      · refine Or.inl ?_
        rw [intercalate_append_length t (headerBase s sub) hhb]
        omega
      · exact Or.inr h
  · have hcc : chunksOfResult (createChunk content s sub page) =
        [{ text := String.intercalate "\n" (chunkParts content s sub),
           sectionTitle := s, subsectionTitle := sub, page := page,
           type := chunkTypeOf content }] := by
      simp only [createChunk, hne, hbig, if_true, if_false, if_neg,
        not_false_eq_true, gt_iff_lt, chunksOfResult]
    have hjoin : (String.intercalate "\n" (chunkParts content s sub)).length =
        (String.intercalate "\n" (headerBase s sub)).length +
          (([""] ++ content.map contentPart).map String.length).sum +
          ([""] ++ content.map contentPart).length := by
      rw [hparts_eq]
      exact intercalate_append_length ([""] ++ content.map contentPart)
        (headerBase s sub) hhb
    refine ⟨[[""] ++ content.map contentPart], ?_, by simp, ?_, ?_⟩
    · rw [hcc]
      simp only [List.map_cons, List.map_nil, hparts_eq]
    · intro t ht
      rw [List.mem_singleton] at ht
      subst ht
      refine Or.inl ?_
      omega
    · intro t ht
      rw [List.mem_singleton] at ht
      subst ht
      refine Or.inl ?_
      rw [intercalate_append_length ([""] ++ content.map contentPart)
        (headerBase s sub) hhb]
      omega

/-- The big item's length. -/
theorem aBig_length : aBig.length = 7999 := by
  show (String.mk (List.replicate 7999 'a')).length = 7999
  rw [String.length]
  exact List.length_replicate 7999 'a'

/-- C2 counterexample: on `cexContent` under section "S", no content
item exceeds the 8000-character budget, yet `_create_chunk` emits a
chunk whose serialized text has 8003 characters — the loop compares the
header-plus-item total (never the item alone) against the budget and
ignores newline separators, so the claim's exception clause ("only when
a single item alone exceeds the budget") is violated. -/
theorem chunk_size_budget_cex :
    (∀ item ∈ cexContent, item.text.length ≤ 8000) ∧
    ∃ c ∈ chunksOfResult (createChunk cexContent "S" none none),
      8000 < c.text.length := by
  have hhb : headerBase "S" none = ["# " ++ "S"] := by simp [headerBase]
  have hhlen : (String.intercalate "\n" ["# " ++ "S"]).length = 3 := by decide
  have hparts : chunkParts cexContent "S" none = ["# " ++ "S", "", aBig, "b"] := by
    have ht1 : ¬(("text" : String) = "table") := by decide
    have ht2 : ¬(("text" : String) = "image") := by decide
    simp only [chunkParts, headerBase, cexContent, List.map_cons, List.map_nil,
      contentPart, ht1, ht2, if_false, List.append_nil, List.cons_append,
      List.nil_append]
  have htext : (String.intercalate "\n" (chunkParts cexContent "S" none)).length = 8006 := by
    rw [hparts]
    rw [show (["# " ++ "S", "", aBig, "b"] : List String) =
      ["# " ++ "S"] ++ ["", aBig, "b"] from rfl]
    rw [intercalate_append_length ["", aBig, "b"] ["# " ++ "S"] (by simp)]
    rw [hhlen]
    have hb1 : ("b" : String).length = 1 := rfl
    have he0 : ("" : String).length = 0 := rfl
    simp [aBig_length, hb1, he0]
  have hbig : (String.intercalate "\n" (chunkParts cexContent "S" none)).length > 8000 := by
    rw [htext]
    norm_num
  have hsplit : splitGo ["# " ++ "S"] 3 ["", aBig, "b"] ["# " ++ "S"] 3 =
      [["# " ++ "S", ""], ["# " ++ "S", aBig], ["# " ++ "S", "b"]] := by
    rw [splitGo, if_neg (by decide)]
    rw [splitGo, if_pos ⟨by rw [aBig_length]; decide, by simp⟩]
    rw [splitGo, if_pos ⟨by rw [aBig_length]; decide, by simp⟩]
    rw [splitGo, if_neg (by simp)]
    simp
  have hempty : cexContent ≠ [] := by simp [cexContent]
  constructor
  · intro item hitem
    simp only [cexContent, List.mem_cons, List.not_mem_nil, or_false] at hitem
    rcases hitem with h | h <;> subst h
    · simp [aBig_length]
    · decide
  · simp only [createChunk, hempty, hbig, if_true, if_false, chunksOfResult,
      List.mem_map, if_neg, not_false_eq_true, gt_iff_lt]
    rw [hhb, hparts, hhlen]
    refine ⟨_, ⟨["# " ++ "S", aBig], ?_, rfl⟩, ?_⟩
    · rw [show (List.drop (["# " ++ "S"] : List String).length
        ["# " ++ "S", "", aBig, "b"]) = ["", aBig, "b"] from rfl]
      rw [hsplit]
      simp
    · show 8000 < (String.intercalate "\n" ["# " ++ "S", aBig]).length
      rw [show (["# " ++ "S", aBig] : List String) = ["# " ++ "S"] ++ [aBig] from rfl]
      rw [intercalate_append_length [aBig] ["# " ++ "S"] (by simp)]
      rw [hhlen]
      simp [aBig_length]



/-- Witness for the amended C2: the chunks built from a small content
list are the header block plus a decomposition of its parts, within the
budget. -/
theorem chunk_size_budget_soft_witness :
    ∃ ts : List (List String),
      chunksOfResult (createChunk wChunkContent "Login" (some "Password Reset") none) =
        ts.map (fun t =>
          { text := String.intercalate "\n" (headerBase "Login" (some "Password Reset") ++ t),
            sectionTitle := "Login", subsectionTitle := some "Password Reset", page := none,
            type := chunkTypeOf wChunkContent }) ∧
      ts.flatten = [""] ++ wChunkContent.map contentPart ∧
      (∀ t ∈ ts, ((String.intercalate "\n" (headerBase "Login" (some "Password Reset"))).length +
          (t.map String.length).sum ≤ 8000 ∨ t.length ≤ 1)) ∧
      (∀ t ∈ ts, ((String.intercalate "\n" (headerBase "Login" (some "Password Reset") ++ t)).length ≤
          8000 + t.length ∨ t.length ≤ 1)) :=
  chunk_size_budget_soft wChunkContent "Login" (some "Password Reset") none (by decide)

/-- C5: a successful "new_version" disposition writes exactly one new
DocumentVersion row referencing the prior document's id and carrying the
prior version number, archives the prior document, and leaves the newly
ingested row with `version = old + 1` and `parent_document_id` pointing
at the prior document.  Hypotheses: the prior row exists with a positive
version number (every row the service writes has `version ≥ 1`), the
fresh document id does not collide with a stored one, and the re-upload
passes the duplicate check (otherwise the Python code raises `KeyError`). -/
theorem new_version_lineage {α : Type} (env : UploadEnv α)
    (new_filename existing_doc_id user_id : String) (db : DBState α) (old : DocRow)
    (hfind : db.documents.find? (fun d => d.id == existing_doc_id) = some old)
    (hver : 0 < old.version)
    (hfresh : env.newDocId ∉ db.documents.map (fun d => d.id))
    (hnodup : (checkDuplicateOrVersion
        (computeContentHash env.sha256hex env.extractedFullText) new_filename user_id
        (db.documents.map (fun d =>
          if d.id = existing_doc_id then { d with status := "archived" } else d))).is_duplicate = false) :
    ∃ (db' : DBState α) (res : UploadResult),
      handleUserChoice env "new_version" new_filename existing_doc_id user_id db =
        Except.ok (db', res) ∧
      db'.document_versions = db.document_versions ++
        [{ id := env.versionRowId, original_document_id := existing_doc_id,
           version_number := old.version, filename := old.filename,
           content_hash := old.content_hash, created_by := user_id }] ∧
      (∃ d ∈ db'.documents, d.id = existing_doc_id ∧ d.status = "archived") ∧
      (∀ d ∈ db'.documents, d.id = existing_doc_id → d.status = "archived") ∧
      (∃ nd ∈ db'.documents, nd.id = env.newDocId ∧ nd.version = old.version + 1 ∧
        nd.parent_document_id = some existing_doc_id) ∧
      res.status = "success" ∧ res.version = some (old.version + 1) := by
  have hpl : pyLower "new_version" = "new_version" := by decide
  have hvz : ¬(old.version = 0) := by omega
  have hid : old.id = existing_doc_id := by
    have := List.find?_some hfind
    simpa using this
  have hmemold : old ∈ db.documents := List.mem_of_find?_eq_some hfind
  have hex_in : existing_doc_id ∈ db.documents.map (fun d => d.id) := by
    rw [← hid]
    exact List.mem_map_of_mem _ hmemold
  have hne : env.newDocId ≠ existing_doc_id := fun h => hfresh (h ▸ hex_in)
  simp only [handleUserChoice, hpl, if_true, ite_true]
  rw [hfind]
  simp only [hvz, if_false, ite_false, uploadDocument, hnodup, Bool.false_eq_true]
  refine ⟨_, _, rfl, ?_, ?_, ?_, ?_, ?_, ?_⟩
  · rfl
  · simp only [List.mem_map, List.mem_append, List.mem_singleton]
    refine ⟨_, ⟨_, Or.inl ⟨old, hmemold, rfl⟩, rfl⟩, ?_, ?_⟩
    · rw [if_pos hid]
      have hcond : ¬(({ old with status := "archived" } : DocRow).id = env.newDocId) := by
        show ¬(old.id = env.newDocId)
        rw [hid]
        exact fun h => hne h.symm
      rw [if_neg hcond]
      exact hid
    · rw [if_pos hid]
      have hcond : ¬(({ old with status := "archived" } : DocRow).id = env.newDocId) := by
        show ¬(old.id = env.newDocId)
        rw [hid]
        exact fun h => hne h.symm
      rw [if_neg hcond]
  · intro d hd hdid
    simp only [List.mem_map, List.mem_append, List.mem_singleton] at hd
    obtain ⟨x, hx, hxd⟩ := hd
    rcases hx with ⟨e, he, hex⟩ | hxnew
    · have henew : ¬(e.id = env.newDocId) := by
        intro h
        exact hfresh (h ▸ List.mem_map_of_mem (fun d => d.id) he)
      by_cases heid : e.id = existing_doc_id
      · rw [if_pos heid] at hex
        subst hex
        have hcond : ¬(({ e with status := "archived" } : DocRow).id = env.newDocId) := henew
        rw [if_neg hcond] at hxd
        rw [← hxd]
      · rw [if_neg heid] at hex
        subst hex
        rw [if_neg henew] at hxd
        subst hxd
        exact absurd hdid heid
    · subst hxnew
      rw [if_pos rfl] at hxd
      subst hxd
      exact absurd hdid hne
  · simp only [List.mem_map, List.mem_append, List.mem_singleton]
    refine ⟨_, ⟨_, Or.inr rfl, rfl⟩, ?_, ?_, ?_⟩
    · rw [if_pos rfl]
    · rw [if_pos rfl]
    · rw [if_pos rfl]
  · rfl
  · rfl

/-- Witness for C5: a concrete "new_version" disposition on a one-row
store produces the lineage row, archives the old row, and stamps the new
row with version 2 and the parent pointer. -/
theorem new_version_lineage_witness :
    ∃ (db' : DBState Nat) (res : UploadResult),
      handleUserChoice trivEnv "new_version" "a2.pdf" "doc-1" "u1" db5 =
        Except.ok (db', res) ∧
      db'.document_versions = db5.document_versions ++
        [{ id := trivEnv.versionRowId, original_document_id := "doc-1",
           version_number := wOld.version, filename := wOld.filename,
           content_hash := wOld.content_hash, created_by := "u1" }] ∧
      (∃ d ∈ db'.documents, d.id = "doc-1" ∧ d.status = "archived") ∧
      (∀ d ∈ db'.documents, d.id = "doc-1" → d.status = "archived") ∧
      (∃ nd ∈ db'.documents, nd.id = trivEnv.newDocId ∧ nd.version = wOld.version + 1 ∧
        nd.parent_document_id = some "doc-1") ∧
      res.status = "success" ∧ res.version = some (wOld.version + 1) := by
  refine new_version_lineage trivEnv "a2.pdf" "doc-1" "u1" db5 wOld ?_ ?_ ?_ ?_
  · decide
  · decide
  · decide
  · have hhash : computeContentHash trivEnv.sha256hex trivEnv.extractedFullText = "" := by
      show computeContentHash (fun s => s) "" = ""
      have h1 : pyLower "" = "" := rfl
      have h2 : ("" : String).data = [] := rfl
      simp only [computeContentHash, h1, h2]
      simp [splitWs]
      rfl
    rw [hhash]
    decide
